import Mathlib

/-!
Verification development for the `babel-plugin-inline-debugger` repository.

The development shallowly embeds the two subsystems of the repository:

* the instrumentation transform of `src/babel-plugin-inline-debugger.ts`
  (marker scanner `hasWorksheetComment`, `createWatchCall`, and the
  `ExpressionStatement` / `ThrowStatement` visitors), over a small Babel-like
  syntax-tree type; and

* the runtime monitor of `src/runtime.ts` (`InlineDebuggerRuntime`:
  `stringify`, `getFn`, `getArrowFn`, `tryToStringify`, `onError`, `save`,
  `inlineDebuggerWatch`, `debugLog`, and the accessor facade
  `getData` / `clearData`), over an explicit heap of JavaScript-like values
  and an explicit store/file state.

Machine-level conventions of the embedding: JavaScript values are the
inductive `JSVal`, with composite values represented as addresses into a
finite heap `List ObjData` so that self-referencing (cyclic) structures are
representable; the traversal of `JSON.stringify` with the runtime's replacer
is `serializeVal`, written with a fuel parameter whose exhaustion models a
stack overflow, and fuel sufficiency is proved; the persisted file is
modelled by its parsed contents (`Option (List DebugData)`), since the JSON
text written by `save` is an injective image of the in-memory record list.
-/

namespace InlineDebugger

/-! ## Marker scanner (`hasWorksheetComment`) -/

/-- Character-list version of `String.startsWith`: `listStartsWith l p` holds
when `p` is a prefix of `l`. Comment text is modelled as `List Char`. -/
def listStartsWith : List Char → List Char → Bool
  | _, [] => true
  | [], _ :: _ => false
  | a :: as, b :: bs => a = b && listStartsWith as bs

/-- Whitespace test used to model `String.prototype.trim` (ASCII part). -/
def isTrimChar (c : Char) : Bool :=
  c = ' ' || c = '\t' || c = '\n' || c = '\r' || c.toNat = 11 || c.toNat = 12

/-- Model of `String.prototype.trim` on character lists. -/
def trimChars (l : List Char) : List Char :=
  ((l.dropWhile isTrimChar).reverse.dropWhile isTrimChar).reverse

/-- Comment lists attached to a node and to its immediate syntactic parent,
as the transform sees them (`path.node.leadingComments` etc., with `[]` for
an absent list or an absent parent). -/
structure Comments where
  leading : List (List Char)
  trailing : List (List Char)
  parentLeading : List (List Char)
  parentTrailing : List (List Char)

/-- Model of `hasWorksheetComment` (babel-plugin-inline-debugger.ts:26-46):
the node is selected when some comment attached to the node or to its parent
has text starting with `"?"` — `comment.value.startsWith("?")`, with no
trimming of the comment text. -/
def hasWorksheetComment (cm : Comments) : Bool :=
  let allComments := cm.leading ++ cm.trailing
  let parentComments := cm.parentLeading ++ cm.parentTrailing
  (allComments ++ parentComments).any (fun c => listStartsWith c ['?'])

/-- Selection predicate following the specification's words (spec §4.1), for
comparison with `hasWorksheetComment`: selected iff some attached comment has
trimmed text beginning with the marker character. -/
def specTrimmedSelected (cm : Comments) : Bool :=
  (cm.leading ++ cm.trailing ++ (cm.parentLeading ++ cm.parentTrailing)).any
    (fun c => listStartsWith (trimChars c) ['?'])

/-! ## Function-source matchers (`getFn`, `getArrowFn`)

The runtime reduces a function value to source text by matching
`fnStr.match(/function\s*(\w*)\s*\([^)]*\)\s*{[\s\S]*}/)` respectively
`fnStr.match(/\([^)]*\)\s*=>\s*{[\s\S]*}/)` and taking `match[0]`.  Both
patterns are implemented directly: the character classes involved are
disjoint from the literals that follow them, so the greedy sub-matches are
deterministic, and the final `[\s\S]*}` extends the match to the last `}` of
the string.  `match` scans start positions left to right. -/

/-- Word character, the `\w` class: letters, digits and underscore. -/
def isWordChar (c : Char) : Bool :=
  c.isAlpha || c.isDigit || c = '_'

/-- Strip a literal prefix, returning the remainder on success. -/
def stripLit : List Char → List Char → Option (List Char)
  | l, [] => some l
  | [], _ :: _ => none
  | c :: l, p :: ps => if c = p then stripLit l ps else none

/-- For the trailing `[\s\S]*}` of both patterns: if the list contains a
`'}'`, return the suffix strictly after the last `'}'` (the unconsumed
remainder); otherwise the pattern fails here. -/
def afterLastBrace (l : List Char) : Option (List Char) :=
  if l.contains '}' then some ((l.reverse.takeWhile (fun c => c != '}')).reverse)
  else none

/-- Attempt to match `function\s*(\w*)\s*\([^)]*\)\s*{[\s\S]*}` at the head
of `l`; on success return the matched segment (`match[0]`). -/
def matchFnAt (l : List Char) : Option (List Char) :=
  match stripLit l ("function".toList) with
  | none => none
  | some r1 =>
    let r2 := r1.dropWhile isTrimChar
    let r3 := r2.dropWhile isWordChar
    let r4 := r3.dropWhile isTrimChar
    match r4 with
    | '(' :: r5 =>
      let r6 := r5.dropWhile (fun c => c != ')')
      match r6 with
      | ')' :: r7 =>
        let r8 := r7.dropWhile isTrimChar
        match r8 with
        | '{' :: r9 =>
          match afterLastBrace r9 with
          | some rest => some (l.take (l.length - rest.length))
          | none => none
        | _ => none
      | _ => none
    | _ => none

/-- Attempt to match `\([^)]*\)\s*=>\s*{[\s\S]*}` at the head of `l`; on
success return the matched segment (`match[0]`). -/
def matchArrowAt (l : List Char) : Option (List Char) :=
  match l with
  | '(' :: r1 =>
    let r2 := r1.dropWhile (fun c => c != ')')
    match r2 with
    | ')' :: r3 =>
      let r4 := r3.dropWhile isTrimChar
      match r4 with
      | '=' :: '>' :: r5 =>
        let r6 := r5.dropWhile isTrimChar
        match r6 with
        | '{' :: r7 =>
          match afterLastBrace r7 with
          | some rest => some (l.take (l.length - rest.length))
          | none => none
        | _ => none
      | _ => none
    | _ => none
  | _ => none

/-- Leftmost match: try the matcher at every start position, left to right,
as `String.prototype.match` does for an unanchored pattern. -/
def firstMatchAux (f : List Char → Option (List Char)) : List Char → Option (List Char)
  | [] => f []
  | l@(_ :: t) =>
    match f l with
    | some m => some m
    | none => firstMatchAux f t

/-- Model of `getFn` (runtime, lines 395-398): first match of the
conventional-function pattern in the function's source text, or `none`. -/
def getFn (src : List Char) : Option (List Char) :=
  firstMatchAux matchFnAt src

/-- Model of `getArrowFn` (runtime, lines 403-406): first match of the
parenthesized block-bodied arrow pattern in the source text, or `none`. -/
def getArrowFn (src : List Char) : Option (List Char) :=
  firstMatchAux matchArrowAt src

/-! ## JavaScript values and the serializer (`stringify`)

`stringify` feeds the value to `JSON.stringify` with a replacer that reduces
functions to source text, replaces `undefined` by a sentinel, replaces
thenables by `"Promise"`, and drops composite values already recorded in a
`cache` array shared across the whole traversal.  Composite values are
modelled as addresses into a finite heap so that cyclic references exist in
the model; the traversal carries fuel, with exhaustion standing for a stack
overflow of the host. -/

/-- JavaScript-like runtime values.  Composite values are heap addresses. -/
inductive JSVal where
  | vnull
  | vundef
  | vbool (b : Bool)
  | vnum (n : Int)
  | vstr (s : String)
  | vfun (src : List Char)
  | vobj (addr : Nat)
  deriving DecidableEq, Repr

/-- Heap cell for one composite value: its own enumerable properties, a flag
for a truthy `then` property (the thenable duck test `value?.then`), and a
flag distinguishing arrays from plain objects. -/
structure ObjData where
  fields : List (String × JSVal)
  hasThen : Bool
  isArr : Bool

/-- Serialized (JSON-like) values produced by the replacer traversal. -/
inductive SVal where
  | snull
  | sbool (b : Bool)
  | snum (n : Int)
  | sstr (s : String)
  | sobj (fields : List (String × SVal))
  | sarr (items : List SVal)

/-- Sentinel the replacer substitutes for `undefined`
(`UNDEFINED_FLAG` in runtime.ts). -/
def UNDEFINED_FLAG : String := "__INLINE_DEBUGGER_UNDEFINED__"

mutual

/-- One replacer step of `stringify` (runtime.ts:366-390) on a value, with
the shared visited `cache` threaded through and returned.  Outer `none`
means the fuel ran out (host stack overflow); inner `none` means the
replacer returned `undefined`, i.e. the occurrence is omitted (the circular
case).  Functions become their matched source text or JSON `null`;
`undefined` becomes the sentinel string; thenable composites become the
string `"Promise"`; a composite already in the cache is omitted; a fresh
composite is pushed on the cache and traversed. -/
def serializeVal (heap : List ObjData) (fuel : Nat) (cache : List Nat) (v : JSVal) :
    Option (Option SVal × List Nat) :=
  match fuel with
  | 0 => none
  | fuel' + 1 =>
    match v with
    | .vfun src =>
      match getFn src with
      | some t => some (some (.sstr (String.mk t)), cache)
      | none =>
        match getArrowFn src with
        | some t => some (some (.sstr (String.mk t)), cache)
        | none => some (some .snull, cache)
    | .vundef => some (some (.sstr UNDEFINED_FLAG), cache)
    | .vnull => some (some .snull, cache)
    | .vbool b => some (some (.sbool b), cache)
    | .vnum n => some (some (.snum n), cache)
    | .vstr s => some (some (.sstr s), cache)
    | .vobj addr =>
      match heap.get? addr with
      | none => some (some .snull, cache)
      | some od =>
        if od.hasThen then some (some (.sstr "Promise"), cache)
        else if addr ∈ cache then some (none, cache)
        else
          match serializeFields heap fuel' (addr :: cache) od.fields with
          | none => none
          | some (fs, cache') =>
            if od.isArr then
              some (some (.sarr (fs.map (fun p => p.2.getD .snull))), cache')
            else
              some (some (.sobj (fs.filterMap (fun p => p.2.map (fun s => (p.1, s))))), cache')
termination_by (fuel, 0)

/-- Traversal of the enumerable properties of a composite, in order, with
the cache threaded left to right as `JSON.stringify` visits them.  An
omitted property keeps its `none` marker here; the caller drops it (object)
or renders `null` (array), matching `JSON.stringify`. -/
def serializeFields (heap : List ObjData) (fuel : Nat) (cache : List Nat)
    (fields : List (String × JSVal)) : Option (List (String × Option SVal) × List Nat) :=
  match fields with
  | [] => some ([], cache)
  | (k, v) :: rest =>
    match serializeVal heap fuel cache v with
    | none => none
    | some (r, cache₁) =>
      match serializeFields heap fuel cache₁ rest with
      | none => none
      | some (rs, cache₂) => some ((k, r) :: rs, cache₂)
termination_by (fuel, fields.length + 1)

end

/-! ## Rendering serialized values to JSON text -/

/-- Escape of one character inside a JSON string literal. -/
def escapeChar (c : Char) : String :=
  if c = '"' then "\\\""
  else if c = '\\' then "\\\\"
  else if c = '\n' then "\\n"
  else if c = '\t' then "\\t"
  else if c = '\r' then "\\r"
  else String.singleton c

/-- Escape of a JSON string body. -/
def escapeJson (s : String) : String :=
  String.join (s.toList.map escapeChar)

mutual

/-- Compact JSON text of a serialized value, as `JSON.stringify` emits with
no indent argument (the runtime's `stringify` passes none). -/
def renderS : SVal → String
  | .snull => "null"
  | .sbool b => if b then "true" else "false"
  | .snum n => toString n
  | .sstr s => "\"" ++ escapeJson s ++ "\""
  | .sobj fs => "\x7b" ++ renderFieldList fs ++ "\x7d"
  | .sarr xs => "[" ++ renderItemList xs ++ "]"

/-- Comma-separated `"key":value` pairs of an object body. -/
def renderFieldList : List (String × SVal) → String
  | [] => ""
  | [(k, v)] => "\"" ++ escapeJson k ++ "\":" ++ renderS v
  | (k, v) :: rest => "\"" ++ escapeJson k ++ "\":" ++ renderS v ++ "," ++ renderFieldList rest

/-- Comma-separated items of an array body. -/
def renderItemList : List SVal → String
  | [] => ""
  | [v] => renderS v
  | v :: rest => renderS v ++ "," ++ renderItemList rest

end

/-- Model of `stringify` (runtime.ts:366-390): run the replacer traversal
from an empty cache with fuel `heap.length + 1` (proved sufficient below)
and render the result.  The `error` case is the host exception a genuinely
diverging traversal would raise; a top-level omission cannot happen from an
empty cache and is rendered by the text `JSON.stringify` would produce when
its result is coerced to a string. -/
def stringify (heap : List ObjData) (v : JSVal) : Except String String :=
  match serializeVal heap (heap.length + 1) [] v with
  | some (some s, _) => .ok (renderS s)
  | some (none, _) => .ok "undefined"
  | none => .error "Maximum call stack size exceeded"

/-- Model of `tryToStringify` (runtime.ts:411-417): call `stringify` and
convert any raised error into a diagnostic string, never propagating it. -/
def tryToStringify (heap : List ObjData) (v : JSVal) : String :=
  match stringify heap v with
  | .ok s => s
  | .error m => "[Error stringifying: " ++ m ++ "]"

/-! ## Store, records, and the monitor (`InlineDebuggerRuntime`) -/

/-- Serialized `called` payload of a persisted record: a single serialized
scalar, the `[error.message, stringError]` pair of an error record, or the
list of serialized arguments of a log record. -/
inductive Outcome where
  | str (s : String)
  | pair (message serialized : String)
  | strs (l : List String)
  deriving DecidableEq, Repr

/-- Persisted trace record (`DebugData` of types.ts, after the monitor has
replaced `called` by its serialized form).  The source fields `variable` and
`prefix` are reserved words in Lean and are named `var` and `pfx` here; an
absent optional field is `none`, and an absent `hide` is `false` (the
monitor only reads `data.hide || false`). -/
structure DebugData where
  type : String
  filePath : String
  line : Nat
  var : Option String
  called : Outcome
  pfx : Option String
  hide : Bool
  deriving DecidableEq, Repr

/-- State owned by `InlineDebuggerRuntime`: the in-memory record sequence
`dataFile` and the persisted file, modelled by its parsed contents (`none`
when the file does not exist). -/
structure MState where
  dataFile : List DebugData
  file : Option (List DebugData)
  deriving DecidableEq, Repr

/-- Model of `save` (runtime.ts:431-443): a suppressed call returns with no
effect at all; otherwise the record, when given, is pushed onto the
in-memory sequence, and the whole sequence is re-serialized and written over
the file. -/
def save (hide : Bool) (dataValue : Option DebugData) (st : MState) : MState :=
  if hide then st
  else
    let st1 :=
      match dataValue with
      | some r => { st with dataFile := st.dataFile ++ [r] }
      | none => st
    { st1 with file := some st1.dataFile }

/-- Model of `clearData` (runtime.ts:528-532): delete the persisted file if
it exists.  The in-memory `dataFile` sequence is not touched. -/
def clearData (st : MState) : MState :=
  { st with file := none }

/-- Model of `getData` (runtime.ts:521-526): parse the persisted file when
it exists, else return the empty sequence. -/
def getData (st : MState) : List DebugData :=
  match st.file with
  | some l => l
  | none => []

/-- Model of `onError` (runtime.ts:422-426): serialize the error, switch the
record's kind to `"error"`, and store the `[error.message, stringError]`
pair as the outcome. -/
def onError (heap : List ObjData) (message : String) (errVal : JSVal)
    (dataValue : DebugData) : DebugData :=
  { dataValue with type := "error", called := .pair message (tryToStringify heap errVal) }

/-- Input record of a monitor call (`data` in `inlineDebuggerWatch`), minus
its deferred computation, which is passed as its evaluation result. -/
structure WatchData where
  type : String
  filePath : String
  line : Nat
  var : Option String
  hide : Bool

/-- Result of evaluating the deferred computation `data.called()`: a normal
value, or a synchronously raised exception together with the string its
`.message` property evaluates to. -/
inductive ThunkRes where
  | ok (v : JSVal)
  | exn (message : String) (e : JSVal)

/-- Observable outcome of a monitor call for its caller: the original error
re-raised by `throw`, or the computed value returned unchanged, together
with the captured record when settlement handlers were attached to a
thenable. -/
inductive WatchRes where
  | raised (e : JSVal) (message : String)
  | value (v : JSVal) (pending : Option DebugData)

/-- The record `dataValue` built at the top of `inlineDebuggerWatch`
(runtime.ts:451-454): a copy of the input with `called` set to the
failed-promise placeholder string. -/
def initialDataValue (d : WatchData) : DebugData :=
  { type := d.type, filePath := d.filePath, line := d.line, var := d.var,
    called := .str "Failed Promise. Please use a .catch to display it",
    pfx := none, hide := d.hide }

/-- Duck test `called?.then` of the monitor: a composite whose `then`
property is truthy. -/
def isThenable (heap : List ObjData) : JSVal → Bool
  | .vobj a =>
    match heap.get? a with
    | some od => od.hasThen
    | none => false
  | _ => false

/-- Model of `inlineDebuggerWatch` (runtime.ts:448-491).  `msgOf` is the
oracle for reading the `.message` property of a value (used when the
record's declared kind is `"error"` and the returned value is cast to an
error).  A synchronous raise is serialized via `onError`, persisted through
`save data.hide`, and re-raised; a declared `"error"` kind treats the
returned value the same way and throws it; a thenable is returned unchanged
and unsuspended with the captured `dataValue` pending for settlement; any
other value is serialized, persisted, and returned. -/
def inlineDebuggerWatch (heap : List ObjData) (msgOf : JSVal → String)
    (d : WatchData) (tr : ThunkRes) (st : MState) : MState × WatchRes :=
  let dv := initialDataValue d
  match tr with
  | .exn m e =>
    let dv := onError heap m e dv
    (save d.hide (some dv) st, .raised e m)
  | .ok called =>
    if d.type = "error" then
      let dv := onError heap (msgOf called) called dv
      (save d.hide (some dv) st, .raised called (msgOf called))
    else if isThenable heap called then
      (st, .value called (some dv))
    else
      let dv := { dv with called := .str (tryToStringify heap called) }
      (save d.hide (some dv) st, .value called none)

/-- Settlement of a pending thenable outcome. -/
inductive Settlement where
  | resolved (v : JSVal)
  | rejected (e : JSVal)

/-- What the settlement handlers hand downstream: the fulfillment value
passed through, or the rejection re-thrown. -/
inductive SettleRes where
  | fulfilled (v : JSVal)
  | rethrown (e : JSVal)

/-- Model of the settlement handlers the monitor attaches
(runtime.ts:472-484): on resolution tag the captured record with the
`"Resolved Promise: "` prefix, serialize and persist, and return the value;
on rejection tag with `"Rejected Promise: "`, serialize and persist, then
re-throw the rejection. -/
def settleWatch (heap : List ObjData) (d : WatchData) (dv : DebugData)
    (s : Settlement) (st : MState) : MState × SettleRes :=
  match s with
  | .resolved r =>
    let dv := { dv with pfx := some "Resolved Promise: ", called := .str (tryToStringify heap r) }
    (save d.hide (some dv) st, .fulfilled r)
  | .rejected e =>
    let dv := { dv with pfx := some "Rejected Promise: ", called := .str (tryToStringify heap e) }
    (save d.hide (some dv) st, .rethrown e)

/-- Input of the logging variant: the original argument list and the record
fields, including the suppression flag. -/
structure LogData where
  type : String
  filePath : String
  line : Nat
  hide : Bool
  called : List JSVal

/-- Model of `debugLog` (runtime.ts:496-506): call the real logging function
once with the original arguments (returned as the first component), replace
`called` by the serialized arguments, default an absent or empty file path
to `"unknown"`, and persist through `save` with a hard-coded `false` for the
suppression argument. -/
def debugLog (heap : List ObjData) (d : LogData) (st : MState) :
    (List JSVal) × MState :=
  let logged := d.called
  let fp := if d.filePath = "" then "unknown" else d.filePath
  let r : DebugData :=
    { type := d.type, filePath := fp, line := d.line, var := none,
      called := .strs (d.called.map (tryToStringify heap)), pfx := none, hide := d.hide }
  (logged, save false (some r) st)

/-! ## Instrumentation transform (Babel visitors) -/

mutual

/-- Babel-like expressions, restricted to the node shapes the transform
builds or inspects. -/
inductive Expr where
  | ident (name : String)
  | strLit (s : String)
  | numLit (n : Nat)
  | member (obj : Expr) (prop : String)
  | call (callee : Expr) (args : List Expr)
  | seqE (exprs : List Expr)
  | objE (props : List (String × Expr))
  | arrowE (params : List String) (body : List Stmt)

/-- Babel-like statements, restricted to the shapes the transform builds. -/
inductive Stmt where
  | exprStmt (e : Expr)
  | throwStmt (e : Expr)
  | retStmt (arg : Option Expr)
  | block (stmts : List Stmt)

end

/-- Model of `t.isCallExpression` as used by the `ExpressionStatement`
visitor (babel-plugin-inline-debugger.ts:139). -/
def isCallExpression : Expr → Bool
  | .call _ _ => true
  | _ => false

/-- A call whose callee is the monitor's own entry point
`inlineDebuggerWatch` — the predicate the specification says exempts a
statement from rewriting. -/
def isMonitorCall : Expr → Bool
  | .call (.ident "inlineDebuggerWatch") _ => true
  | _ => false

/-- Model of `createWatchCall` (babel-plugin-inline-debugger.ts:58-86):
build `inlineDebuggerWatch({type, filePath, line, called: () => {}})`, with
a `variable` property appended when a name is supplied.  `called` starts as
an empty-bodied arrow, which each visitor then replaces. -/
def createWatchCall (filePath : String) (line : Nat) (ty : String)
    (var : Option String) : Expr :=
  .call (.ident "inlineDebuggerWatch")
    [.objE
      ([("type", .strLit ty), ("filePath", .strLit filePath),
        ("line", .numLit line), ("called", .arrowE [] [])] ++
        match var with
        | some v => [("variable", .strLit v)]
        | none => [])]

/-- The mutation `watchObject.properties[3].value = () => { return body }`
every visitor performs on the freshly built watch call: replace the value of
property index 3 (the `called` slot) with a thunk returning `body`. -/
def setCalled (w : Expr) (body : Expr) : Expr :=
  match w with
  | .call c [.objE props] =>
    .call c [.objE (props.set 3 ("called", .arrowE [] [.retStmt (some body)]))]
  | e => e

/-- Model of the `ExpressionStatement` visitor
(babel-plugin-inline-debugger.ts:137-153): an unselected statement, or one
whose expression is any call expression, is left untouched; otherwise the
statement becomes `(watchCall, E)` with the watch thunk returning `E`. -/
def expressionStatementVisitor (cm : Comments) (fp : String) (line : Nat)
    (e : Expr) : Stmt :=
  if !(hasWorksheetComment cm) then .exprStmt e
  else if isCallExpression e then .exprStmt e
  else .exprStmt (.seqE [setCalled (createWatchCall fp line "expression" none) e, e])

/-- Model of the `ThrowStatement` visitor
(babel-plugin-inline-debugger.ts:189-208): an unselected statement is left
untouched; a selected one becomes a block that first evaluates the watch
call — whose thunk returns (does not raise) the throw operand — and then
performs the actual throw of the original operand. -/
def throwStatementVisitor (cm : Comments) (fp : String) (line : Nat)
    (arg : Expr) : Stmt :=
  if !(hasWorksheetComment cm) then .throwStmt arg
  else
    .block
      [.exprStmt (setCalled (createWatchCall fp line "throw" none) arg),
       .throwStmt arg]

/-- Runtime behaviour of the block the `ThrowStatement` visitor emits,
`{ inlineDebuggerWatch({type: "throw", ..., called: () => arg}); throw arg }`:
run the monitor on the evaluation result of `arg`; if the monitor re-raises,
that exception propagates out of the block before the throw is reached;
otherwise the block throws the operand's value (its evaluation repeated —
identical for the pure operands surrounding code observes).  The result pairs
the state after the monitor call with the value the catching frame observes
and that value's `.message` property. -/
def runInstrumentedThrow (heap : List ObjData) (msgOf : JSVal → String)
    (d : WatchData) (argRes : ThunkRes) (st : MState) :
    MState × (JSVal × String) :=
  match inlineDebuggerWatch heap msgOf d argRes st with
  | (st', .raised e m) => (st', (e, m))
  | (st', .value _ _) =>
    match argRes with
    | .ok v => (st', (v, msgOf v))
    | .exn m e => (st', (e, m))

/-- The record the settlement handlers persist for a given settlement of the
pending thenable: the captured `dataValue` tagged with the matching prefix
and carrying the serialized settled payload. -/
def settledRecord (heap : List ObjData) (d : WatchData) : Settlement → DebugData
  | .resolved r =>
    { initialDataValue d with
      pfx := some "Resolved Promise: ",
      called := .str (tryToStringify heap r) }
  | .rejected e =>
    { initialDataValue d with
      pfx := some "Rejected Promise: ",
      called := .str (tryToStringify heap e) }

/-- Number of heap addresses not yet recorded in the visited cache: the
measure that bounds the serializer's descent. -/
def unvisited (heap : List ObjData) (cache : List Nat) : Nat :=
  ((Finset.range heap.length).filter (fun a => a ∉ cache)).card

/-! ## Theorems -/

/-- The error-kind record `inlineDebuggerWatch` persists for a synchronous
raise of message `m` and error value `e`. -/
theorem watch_error_record (heap : List ObjData) (d : WatchData) (m : String)
    (e : JSVal) :
    onError heap m e (initialDataValue d) =
      { type := "error", filePath := d.filePath, line := d.line, var := d.var,
        called := .pair m (tryToStringify heap e), pfx := none, hide := d.hide } := by
  simp [onError, initialDataValue]

/-- C1: for a monitor call whose deferred computation raises synchronously —
and likewise for one whose record declares kind `"error"`, for every
returned value and hence in particular an error-shaped one — the monitor
serializes the error into a persisted error-kind record (the record is
appended and the whole sequence is re-written to the file) and then
re-raises the original error to the caller unchanged.  Errors are never
swallowed: both branches end in `WatchRes.raised`.  Persistence is stated
for a non-suppressed record, matching `save`'s contract for the `hide`
flag. -/
theorem monitor_settled_error_persists_and_reraises (heap : List ObjData)
    (msgOf : JSVal → String) (d : WatchData) (st : MState)
    (hhide : d.hide = false) :
    (∀ m e,
      inlineDebuggerWatch heap msgOf d (.exn m e) st =
        ({ dataFile := st.dataFile ++ [onError heap m e (initialDataValue d)],
           file := some (st.dataFile ++ [onError heap m e (initialDataValue d)]) },
          .raised e m) ∧
      (onError heap m e (initialDataValue d)).type = "error" ∧
      (onError heap m e (initialDataValue d)).called = .pair m (tryToStringify heap e)) ∧
    (∀ v, d.type = "error" →
      inlineDebuggerWatch heap msgOf d (.ok v) st =
        ({ dataFile := st.dataFile ++ [onError heap (msgOf v) v (initialDataValue d)],
           file := some (st.dataFile ++ [onError heap (msgOf v) v (initialDataValue d)]) },
          .raised v (msgOf v)) ∧
      (onError heap (msgOf v) v (initialDataValue d)).type = "error" ∧
      (onError heap (msgOf v) v (initialDataValue d)).called =
        .pair (msgOf v) (tryToStringify heap v)) := by
  constructor
  · intro m e
    refine ⟨?_, ?_, ?_⟩
    · simp [inlineDebuggerWatch, save, hhide]
    · simp [onError]
    · simp [onError]
  · intro v hty
    refine ⟨?_, ?_, ?_⟩
    · simp [inlineDebuggerWatch, save, hhide, hty]
    · simp [onError]
    · simp [onError]

/-- Witness for the previous theorem at concrete inputs: a thunk raising
`vnull` with message `"boom"`, and a declared error-kind record whose thunk
returns `vnull`. -/
theorem monitor_settled_error_persists_and_reraises_witness :
    (inlineDebuggerWatch [] (fun _ => "msg") ⟨"error", "f.ts", 1, none, false⟩
        (.exn "boom" .vnull) ⟨[], none⟩ =
      ({ dataFile := [] ++ [onError [] "boom" .vnull
            (initialDataValue ⟨"error", "f.ts", 1, none, false⟩)],
         file := some ([] ++ [onError [] "boom" .vnull
            (initialDataValue ⟨"error", "f.ts", 1, none, false⟩)]) },
        .raised .vnull "boom") ∧
      (onError [] "boom" .vnull
        (initialDataValue ⟨"error", "f.ts", 1, none, false⟩)).type = "error" ∧
      (onError [] "boom" .vnull
        (initialDataValue ⟨"error", "f.ts", 1, none, false⟩)).called =
          .pair "boom" (tryToStringify [] .vnull)) ∧
    (inlineDebuggerWatch [] (fun _ => "msg") ⟨"error", "f.ts", 1, none, false⟩
        (.ok .vnull) ⟨[], none⟩ =
      ({ dataFile := [] ++ [onError [] "msg" .vnull
            (initialDataValue ⟨"error", "f.ts", 1, none, false⟩)],
         file := some ([] ++ [onError [] "msg" .vnull
            (initialDataValue ⟨"error", "f.ts", 1, none, false⟩)]) },
        .raised .vnull "msg") ∧
      (onError [] "msg" .vnull
        (initialDataValue ⟨"error", "f.ts", 1, none, false⟩)).type = "error" ∧
      (onError [] "msg" .vnull
        (initialDataValue ⟨"error", "f.ts", 1, none, false⟩)).called =
          .pair "msg" (tryToStringify [] .vnull)) :=
  ⟨(monitor_settled_error_persists_and_reraises [] (fun _ => "msg")
      ⟨"error", "f.ts", 1, none, false⟩ ⟨[], none⟩ rfl).1 "boom" .vnull,
   (monitor_settled_error_persists_and_reraises [] (fun _ => "msg")
      ⟨"error", "f.ts", 1, none, false⟩ ⟨[], none⟩ rfl).2 .vnull rfl⟩

/-- C2: for a monitor call whose deferred computation returns a thenable,
the monitor returns that same value to the caller immediately — the call
touches neither the store nor the file, so nothing suspends and persistence
is deferred to settlement.  For every later settlement exactly one record is
appended and the file rewritten: its prefix is the `"Resolved Promise: "`
tag exactly when the settlement is a resolution and the `"Rejected
Promise: "` tag exactly when it is a rejection (never both), it carries the
serialized settled payload, and a rejection is re-thrown downstream while a
resolution passes its value through. -/
theorem monitor_thenable_unsuspended_and_settles_exactly_once
    (heap : List ObjData) (msgOf : JSVal → String) (d : WatchData)
    (st : MState) (v : JSVal) (hty : d.type ≠ "error")
    (hth : isThenable heap v = true) :
    inlineDebuggerWatch heap msgOf d (.ok v) st =
      (st, .value v (some (initialDataValue d))) ∧
    (∀ s st₂, d.hide = false →
      (settleWatch heap d (initialDataValue d) s st₂).1 =
        { dataFile := st₂.dataFile ++ [settledRecord heap d s],
          file := some (st₂.dataFile ++ [settledRecord heap d s]) } ∧
      ((settledRecord heap d s).pfx = some "Resolved Promise: " ↔
        ∃ x, s = .resolved x) ∧
      ((settledRecord heap d s).pfx = some "Rejected Promise: " ↔
        ∃ x, s = .rejected x) ∧
      (∀ x, s = .resolved x →
        (settledRecord heap d s).called = .str (tryToStringify heap x) ∧
        (settleWatch heap d (initialDataValue d) s st₂).2 = .fulfilled x) ∧
      (∀ x, s = .rejected x →
        (settledRecord heap d s).called = .str (tryToStringify heap x) ∧
        (settleWatch heap d (initialDataValue d) s st₂).2 = .rethrown x)) := by
  constructor
  · simp [inlineDebuggerWatch, hty, hth]
  · intro s st₂ hh
    cases s with
    | resolved x =>
      refine ⟨by simp [settleWatch, save, settledRecord, hh],
        by simp [settledRecord], by simp [settledRecord], ?_, ?_⟩
      · intro y hy
        injection hy with h
        subst h
        exact ⟨by simp [settledRecord], by simp [settleWatch, save, hh]⟩
      · intro y hy
        exact Settlement.noConfusion hy
    | rejected x =>
      refine ⟨by simp [settleWatch, save, settledRecord, hh],
        by simp [settledRecord], by simp [settledRecord], ?_, ?_⟩
      · intro y hy
        exact Settlement.noConfusion hy
      · intro y hy
        injection hy with h
        subst h
        exact ⟨by simp [settledRecord], by simp [settleWatch, save, hh]⟩

/-- Witness for the previous theorem: a one-cell heap whose address `0` is a
thenable, a `"variable"`-kind non-suppressed record, and a rejection
settling with `vnull`: the monitor returns the thenable unsuspended with the
state untouched, and the rejection handler re-throws. -/
theorem monitor_thenable_unsuspended_and_settles_exactly_once_witness :
    inlineDebuggerWatch [⟨[], true, false⟩] (fun _ => "msg")
        ⟨"variable", "f.ts", 1, none, false⟩ (.ok (.vobj 0)) ⟨[], none⟩ =
      (⟨[], none⟩,
        .value (.vobj 0)
          (some (initialDataValue ⟨"variable", "f.ts", 1, none, false⟩))) ∧
    (settleWatch [⟨[], true, false⟩] ⟨"variable", "f.ts", 1, none, false⟩
        (initialDataValue ⟨"variable", "f.ts", 1, none, false⟩)
        (.rejected .vnull) ⟨[], none⟩).2 = .rethrown .vnull :=
  ⟨(monitor_thenable_unsuspended_and_settles_exactly_once
      [⟨[], true, false⟩] (fun _ => "msg") ⟨"variable", "f.ts", 1, none, false⟩
      ⟨[], none⟩ (.vobj 0) (by decide) rfl).1,
   (((monitor_thenable_unsuspended_and_settles_exactly_once
      [⟨[], true, false⟩] (fun _ => "msg") ⟨"variable", "f.ts", 1, none, false⟩
      ⟨[], none⟩ (.vobj 0) (by decide) rfl).2 (.rejected .vnull) ⟨[], none⟩
        rfl).2.2.2.2 .vnull rfl).2⟩

/-- C4, counterexample: a comment whose raw text is `" ?"` (whitespace, then
the marker) has trimmed text beginning with `"?"`, so the claim's trimmed
prefix test selects the node — but `hasWorksheetComment` tests the raw text
with `startsWith` and does not select it. -/
theorem scanner_whitespace_marker_comment_not_selected :
    specTrimmedSelected ⟨[[' ', '?']], [], [], []⟩ = true ∧
    hasWorksheetComment ⟨[[' ', '?']], [], [], []⟩ = false := by
  decide

/-- C4, amended: a node is selected iff some comment attached to it
(leading or trailing) or to its immediate syntactic parent has RAW text
beginning with the marker character `"?"` — the prefix test runs on the
untrimmed comment content, so leading whitespace defeats the marker. -/
theorem scanner_selects_iff_raw_marker_prefix (cm : Comments) :
    hasWorksheetComment cm = true ↔
      ∃ c, (c ∈ cm.leading ∨ c ∈ cm.trailing ∨ c ∈ cm.parentLeading ∨
        c ∈ cm.parentTrailing) ∧ listStartsWith c ['?'] = true := by
  simp only [hasWorksheetComment, List.any_eq_true, List.mem_append]
  constructor
  · rintro ⟨c, hc, hp⟩
    exact ⟨c, by tauto, hp⟩
  · rintro ⟨c, hc, hp⟩
    exact ⟨c, by tauto, hp⟩

/-- C5, counterexample: a selected bare expression statement whose
expression is the call `foo()` — not a call to the monitor's entry point —
is left untouched by the `ExpressionStatement` visitor, although the claim
says only statements that are already monitor calls are exempt from the
duplicate-then-real rewriting. -/
theorem expression_statement_foreign_call_left_untouched :
    hasWorksheetComment ⟨[['?']], [], [], []⟩ = true ∧
    isMonitorCall (.call (.ident "foo") []) = false ∧
    expressionStatementVisitor ⟨[['?']], [], [], []⟩ "f.ts" 1
        (.call (.ident "foo") []) =
      .exprStmt (.call (.ident "foo") []) ∧
    Stmt.exprStmt (.call (.ident "foo") []) ≠
      Stmt.exprStmt (.seqE
        [setCalled (createWatchCall "f.ts" 1 "expression" none)
          (.call (.ident "foo") []),
         .call (.ident "foo") []]) := by
  refine ⟨rfl, rfl, rfl, ?_⟩
  intro h
  injection h with h1
  simp [setCalled, createWatchCall] at h1

/-- C5, amended: a selected bare expression statement whose expression is
not a call expression of any kind is rewritten to the duplicate-then-real
pattern — a monitor call whose thunk returns the expression, followed by the
real expression inside a sequence, so the expression occurs twice — while
every statement whose expression is any call expression (monitor call or
not) is exempt from rewriting. -/
theorem expression_statement_rewrites_only_noncalls (cm : Comments)
    (fp : String) (line : Nat) (e : Expr)
    (hsel : hasWorksheetComment cm = true)
    (hcall : isCallExpression e = false) :
    expressionStatementVisitor cm fp line e =
      .exprStmt (.seqE
        [.call (.ident "inlineDebuggerWatch")
          [.objE
            [("type", .strLit "expression"), ("filePath", .strLit fp),
             ("line", .numLit line),
             ("called", .arrowE [] [.retStmt (some e)])]],
         e]) ∧
    (∀ e', isCallExpression e' = true →
      expressionStatementVisitor cm fp line e' = .exprStmt e') := by
  constructor
  · simp [expressionStatementVisitor, hsel, hcall, setCalled, createWatchCall]
  · intro e' hc'
    simp [expressionStatementVisitor, hsel, hc']

/-- Witness for the previous theorem: a marked identifier statement `x;` is
rewritten to the duplicate-then-real sequence, and a marked call statement
is exempt. -/
theorem expression_statement_rewrites_only_noncalls_witness :
    expressionStatementVisitor ⟨[['?']], [], [], []⟩ "f.ts" 1 (.ident "x") =
      .exprStmt (.seqE
        [.call (.ident "inlineDebuggerWatch")
          [.objE
            [("type", .strLit "expression"), ("filePath", .strLit "f.ts"),
             ("line", .numLit 1),
             ("called", .arrowE [] [.retStmt (some (.ident "x"))])]],
         .ident "x"]) ∧
    (∀ e', isCallExpression e' = true →
      expressionStatementVisitor ⟨[['?']], [], [], []⟩ "f.ts" 1 e' =
        .exprStmt e') :=
  expression_statement_rewrites_only_noncalls ⟨[['?']], [], [], []⟩ "f.ts" 1
    (.ident "x") rfl rfl

/-- C6, counterexample: the file-equals-serialized-sequence relationship
does not hold after every Store operation — after an append followed by a
clear, the in-memory sequence still holds the record while the file is
gone. -/
theorem store_file_relationship_broken_by_clear :
    (clearData (save false
        (some ⟨"variable", "f.ts", 1, none, .str "5", none, false⟩)
        ⟨[], none⟩)).dataFile =
      [⟨"variable", "f.ts", 1, none, .str "5", none, false⟩] ∧
    (clearData (save false
        (some ⟨"variable", "f.ts", 1, none, .str "5", none, false⟩)
        ⟨[], none⟩)).file = none ∧
    (clearData (save false
        (some ⟨"variable", "f.ts", 1, none, .str "5", none, false⟩)
        ⟨[], none⟩)).file ≠
      some (clearData (save false
        (some ⟨"variable", "f.ts", 1, none, .str "5", none, false⟩)
        ⟨[], none⟩)).dataFile := by
  decide

/-- C6, amended: every non-suppressed append pushes the record and writes
the complete serialization of the entire in-memory sequence over the file
(an overwrite, never an incremental append) — so the file equals the full
sequence after every append, and a suppressed append changes nothing — but
the relationship is not maintained by `clearData`, which deletes the file
without resetting the sequence. -/
theorem save_rewrites_whole_store_on_append (st : MState) (r : DebugData) :
    save false (some r) st =
      { dataFile := st.dataFile ++ [r], file := some (st.dataFile ++ [r]) } ∧
    save false none st = { dataFile := st.dataFile, file := some st.dataFile } ∧
    save true (some r) st = st := by
  refine ⟨?_, ?_, ?_⟩ <;> simp [save]

/-- C7, counterexample: after clearing a store holding one record, read-all
is empty, but the in-memory sequence is not reset, and the next append
re-persists the pre-clear record into the file. -/
theorem pre_clear_record_repersisted_by_later_append :
    getData (clearData ⟨[⟨"variable", "a.ts", 1, none, .str "1", none, false⟩],
      some [⟨"variable", "a.ts", 1, none, .str "1", none, false⟩]⟩) = [] ∧
    (clearData ⟨[⟨"variable", "a.ts", 1, none, .str "1", none, false⟩],
      some [⟨"variable", "a.ts", 1, none, .str "1", none, false⟩]⟩).dataFile ≠
      [] ∧
    (save false (some ⟨"variable", "b.ts", 2, none, .str "2", none, false⟩)
        (clearData ⟨[⟨"variable", "a.ts", 1, none, .str "1", none, false⟩],
          some [⟨"variable", "a.ts", 1, none, .str "1", none, false⟩]⟩)).file =
      some [⟨"variable", "a.ts", 1, none, .str "1", none, false⟩,
        ⟨"variable", "b.ts", 2, none, .str "2", none, false⟩] := by
  decide

/-- C7, amended: a clear deletes the persisted file, so a subsequent
read-all returns the empty sequence — but the in-memory record sequence is
left as it was (not reset to empty), and therefore pre-clear records are
re-persisted by a later append. -/
theorem clear_deletes_file_but_keeps_memory (st : MState) :
    getData (clearData st) = [] ∧ (clearData st).file = none ∧
    (clearData st).dataFile = st.dataFile := by
  refine ⟨?_, ?_, ?_⟩ <;> simp [getData, clearData]

/-- C10, counterexample: the logging variant `debugLog` passes a hard-coded
`false` to `save`, so a record carrying the suppression flag is still
appended and written to the file. -/
theorem debuglog_persists_suppressed_record :
    (debugLog [] ⟨"log", "f.ts", 1, true, []⟩ ⟨[], none⟩).2 =
      ⟨[⟨"log", "f.ts", 1, none, .strs [], none, true⟩],
        some [⟨"log", "f.ts", 1, none, .strs [], none, true⟩]⟩ := by
  decide

/-- C10, amended: for `inlineDebuggerWatch` (and its settlement handlers) a
record carrying the suppression flag is never persisted — the state is left
untouched on every path — while error outcomes are still re-raised; the
logging variant, however, ignores the flag and always persists its
record. -/
theorem suppressed_never_persisted_except_by_debuglog (heap : List ObjData)
    (msgOf : JSVal → String) (d : WatchData) (st : MState)
    (hhide : d.hide = true) :
    (∀ m e, inlineDebuggerWatch heap msgOf d (.exn m e) st = (st, .raised e m)) ∧
    (∀ v, d.type = "error" →
      inlineDebuggerWatch heap msgOf d (.ok v) st = (st, .raised v (msgOf v))) ∧
    (∀ v, d.type ≠ "error" → isThenable heap v = false →
      inlineDebuggerWatch heap msgOf d (.ok v) st = (st, .value v none)) ∧
    (∀ dv s, (settleWatch heap d dv s st).1 = st ∧
      (∀ e, s = .rejected e → (settleWatch heap d dv s st).2 = .rethrown e)) ∧
    (∀ ld : LogData,
      (debugLog heap ld st).2.dataFile.length = st.dataFile.length + 1 ∧
      (debugLog heap ld st).2.file = some ((debugLog heap ld st).2.dataFile)) := by
  refine ⟨?_, ?_, ?_, ?_, ?_⟩
  · intro m e
    simp [inlineDebuggerWatch, save, hhide]
  · intro v hty
    simp [inlineDebuggerWatch, save, hhide, hty]
  · intro v hty hth
    simp [inlineDebuggerWatch, save, hhide, hty, hth]
  · intro dv s
    cases s with
    | resolved x =>
      exact ⟨by simp [settleWatch, save, hhide], by intro e he; cases he⟩
    | rejected x =>
      refine ⟨by simp [settleWatch, save, hhide], ?_⟩
      intro e he
      injection he with h
      subst h
      simp [settleWatch, save, hhide]
  · intro ld
    constructor
    · simp [debugLog, save]
    · simp [debugLog, save]

/-- Witness for the previous theorem: a suppressed `"error"`-kind record
whose thunk raises; the state is untouched while the error re-raises, and a
suppressed log record is still persisted. -/
theorem suppressed_never_persisted_except_by_debuglog_witness :
    inlineDebuggerWatch [] (fun _ => "msg") ⟨"error", "f.ts", 1, none, true⟩
        (.exn "boom" .vnull) ⟨[], none⟩ = (⟨[], none⟩, .raised .vnull "boom") ∧
    (debugLog [] ⟨"log", "f.ts", 1, true, []⟩ ⟨[], none⟩).2.dataFile.length =
      ([] : List DebugData).length + 1 :=
  ⟨(suppressed_never_persisted_except_by_debuglog [] (fun _ => "msg")
      ⟨"error", "f.ts", 1, none, true⟩ ⟨[], none⟩ rfl).1 "boom" .vnull,
   ((suppressed_never_persisted_except_by_debuglog [] (fun _ => "msg")
      ⟨"error", "f.ts", 1, none, true⟩ ⟨[], none⟩ rfl).2.2.2.2
        ⟨"log", "f.ts", 1, true, []⟩).1⟩

/-- C3, counterexample: running the instrumented throw block for
`throw new Error("Name is required")` — the thunk returns the fresh error
object at heap address `0` (a JavaScript `Error` has no enumerable
properties), `.message` reads `"Name is required"` — the guard observes the
thrown value with that exact message, and exactly one record is persisted
before the throw propagates, but that record's kind is `"throw"`, not
`"error"`, and its outcome is the serialization `"\x7b\x7d"` of the error
object, which does not carry the message. -/
theorem throw_statement_persists_throw_kind_record_not_error_kind :
    (runInstrumentedThrow [⟨[], false, false⟩] (fun _ => "Name is required")
        ⟨"throw", "user.ts", 20, none, false⟩ (.ok (.vobj 0)) ⟨[], none⟩).2 =
      (.vobj 0, "Name is required") ∧
    (runInstrumentedThrow [⟨[], false, false⟩] (fun _ => "Name is required")
        ⟨"throw", "user.ts", 20, none, false⟩ (.ok (.vobj 0))
        ⟨[], none⟩).1.dataFile.map DebugData.type = ["throw"] ∧
    ((runInstrumentedThrow [⟨[], false, false⟩] (fun _ => "Name is required")
        ⟨"throw", "user.ts", 20, none, false⟩ (.ok (.vobj 0))
        ⟨[], none⟩).1.dataFile.filter (fun r => r.type == "error")).length = 0 ∧
    (runInstrumentedThrow [⟨[], false, false⟩] (fun _ => "Name is required")
        ⟨"throw", "user.ts", 20, none, false⟩ (.ok (.vobj 0))
        ⟨[], none⟩).1.dataFile.map DebugData.called = [.str "\x7b\x7d"] := by
  refine ⟨?_, ?_, ?_, ?_⟩ <;>
    simp [runInstrumentedThrow, inlineDebuggerWatch, save, isThenable,
      initialDataValue, tryToStringify, stringify, serializeVal,
      serializeFields, renderS, renderFieldList]

/-- C3, amended: for every selected throw statement the transform produces a
block that first executes a monitor call whose thunk returns (does not
raise) the throw operand and then performs the actual throw; when the
operand evaluates to a (non-thenable) value, the catching frame observes
that original value — the exact message reaches the guard — and exactly one
record is persisted strictly before the throw propagates; the record carries
kind `"throw"` and the serialized thrown value (an error-kind record with
the message arises only when the thunk itself raises). -/
theorem throw_statement_instrumented_block_behaviour (cm : Comments)
    (fp : String) (line : Nat) (arg : Expr) (heap : List ObjData)
    (msgOf : JSVal → String) (st : MState) (v : JSVal)
    (hsel : hasWorksheetComment cm = true)
    (hth : isThenable heap v = false) :
    throwStatementVisitor cm fp line arg =
      .block
        [.exprStmt (.call (.ident "inlineDebuggerWatch")
          [.objE
            [("type", .strLit "throw"), ("filePath", .strLit fp),
             ("line", .numLit line),
             ("called", .arrowE [] [.retStmt (some arg)])]]),
         .throwStmt arg] ∧
    runInstrumentedThrow heap msgOf ⟨"throw", fp, line, none, false⟩
        (.ok v) st =
      ({ dataFile := st.dataFile ++
          [{ initialDataValue ⟨"throw", fp, line, none, false⟩ with
             called := Outcome.str (tryToStringify heap v) }],
         file := some (st.dataFile ++
          [{ initialDataValue ⟨"throw", fp, line, none, false⟩ with
             called := Outcome.str (tryToStringify heap v) }]) },
        (v, msgOf v)) ∧
    ({ initialDataValue ⟨"throw", fp, line, none, false⟩ with
       called := Outcome.str (tryToStringify heap v) } : DebugData).type =
      "throw" := by
  refine ⟨?_, ?_, ?_⟩
  · simp [throwStatementVisitor, hsel, setCalled, createWatchCall]
  · simp [runInstrumentedThrow, inlineDebuggerWatch, save, hth,
      initialDataValue]
  · simp [initialDataValue]

/-- Witness for the previous theorem: the marked
`throw new Error("Name is required")` of the test fixture, with the error
value at heap address `0`. -/
theorem throw_statement_instrumented_block_behaviour_witness :
    throwStatementVisitor ⟨[['?']], [], [], []⟩ "user.ts" 20
        (.call (.ident "Error") [.strLit "Name is required"]) =
      .block
        [.exprStmt (.call (.ident "inlineDebuggerWatch")
          [.objE
            [("type", .strLit "throw"), ("filePath", .strLit "user.ts"),
             ("line", .numLit 20),
             ("called", .arrowE []
               [.retStmt (some (.call (.ident "Error")
                 [.strLit "Name is required"]))])]]),
         .throwStmt (.call (.ident "Error") [.strLit "Name is required"])] ∧
    runInstrumentedThrow [⟨[], false, false⟩] (fun _ => "Name is required")
        ⟨"throw", "user.ts", 20, none, false⟩ (.ok (.vobj 0)) ⟨[], none⟩ =
      ({ dataFile := [] ++
          [{ initialDataValue ⟨"throw", "user.ts", 20, none, false⟩ with
             called := Outcome.str
               (tryToStringify [⟨[], false, false⟩] (.vobj 0)) }],
         file := some ([] ++
          [{ initialDataValue ⟨"throw", "user.ts", 20, none, false⟩ with
             called := Outcome.str
               (tryToStringify [⟨[], false, false⟩] (.vobj 0)) }]) },
        (.vobj 0, "Name is required")) ∧
    ({ initialDataValue ⟨"throw", "user.ts", 20, none, false⟩ with
       called := Outcome.str
         (tryToStringify [⟨[], false, false⟩] (.vobj 0)) } : DebugData).type =
      "throw" :=
  throw_statement_instrumented_block_behaviour ⟨[['?']], [], [], []⟩
    "user.ts" 20 (.call (.ident "Error") [.strLit "Name is required"])
    [⟨[], false, false⟩] (fun _ => "Name is required") ⟨[], none⟩ (.vobj 0)
    rfl rfl

/-- C8, counterexample: the single-expression arrow `() => 1` matches
neither source pattern — `getArrowFn`'s pattern demands a block body after
`=>` — so the serializer replaces this function value by JSON `null`
rather than preserving its source text: the claim fails both in calling the
arrow pattern "single-expression" and in promising an opaque source-text
fallback. -/
theorem serializer_drops_unmatched_function_to_null :
    getFn ("() => 1".toList) = none ∧
    getArrowFn ("() => 1".toList) = none ∧
    stringify [] (.vfun ("() => 1".toList)) = .ok "null" ∧
    "null" ≠ "\"" ++ escapeJson "() => 1" ++ "\"" := by
  have h1 : getFn ['(', ')', ' ', '=', '>', ' ', '1'] = none := by decide
  have h2 : getArrowFn ['(', ')', ' ', '=', '>', ' ', '1'] = none := by decide
  refine ⟨by decide, by decide, ?_, by decide⟩
  simp [stringify, serializeVal, h1, h2, renderS]

/-- C8, amended: a function value whose source text matches the
conventional-function pattern, or (when that fails) the parenthesized
block-bodied arrow pattern, is serialized as the matched source text (a
JSON string); a function value matching neither pattern is serialized as
JSON `null`. -/
theorem serializer_function_reduction (heap : List ObjData) (src t : List Char) :
    (getFn src = some t →
      serializeVal heap (heap.length + 1) [] (.vfun src) =
        some (some (.sstr (String.mk t)), [])) ∧
    (getFn src = none → getArrowFn src = some t →
      serializeVal heap (heap.length + 1) [] (.vfun src) =
        some (some (.sstr (String.mk t)), [])) ∧
    (getFn src = none → getArrowFn src = none →
      serializeVal heap (heap.length + 1) [] (.vfun src) =
        some (some .snull, [])) := by
  refine ⟨?_, ?_, ?_⟩
  · intro h
    simp [serializeVal, h]
  · intro h1 h2
    simp [serializeVal, h1, h2]
  · intro h1 h2
    simp [serializeVal, h1, h2]

/-- Witness for the previous theorem: a conventional function source is
reduced to its matched source text, and the unmatched `x => x + 1` is
reduced to JSON `null`. -/
theorem serializer_function_reduction_witness :
    serializeVal [] 1 [] (.vfun ("function add(a, b) \x7b return a + b; \x7d".toList)) =
      some (some (.sstr (String.mk
        ("function add(a, b) \x7b return a + b; \x7d".toList))), []) ∧
    serializeVal [] 1 [] (.vfun ("x => x + 1".toList)) =
      some (some .snull, []) :=
  ⟨(serializer_function_reduction [] ("function add(a, b) \x7b return a + b; \x7d".toList)
      ("function add(a, b) \x7b return a + b; \x7d".toList)).1 (by decide),
   (serializer_function_reduction [] ("x => x + 1".toList)
      ("x => x + 1".toList)).2.2 (by decide) (by decide)⟩

/-- With an empty visited cache every heap address is unvisited. -/
theorem unvisited_empty (heap : List ObjData) : unvisited heap [] = heap.length := by
  simp [unvisited]

/-- Growing the visited cache cannot increase the unvisited count. -/
theorem unvisited_le (heap : List ObjData) {c c' : List Nat}
    (h : ∀ a, a ∈ c → a ∈ c') : unvisited heap c' ≤ unvisited heap c := by
  apply Finset.card_le_card
  intro a ha
  simp only [Finset.mem_filter] at ha ⊢
  exact ⟨ha.1, fun hc => ha.2 (h a hc)⟩

/-- Visiting a fresh heap address strictly shrinks the unvisited count. -/
theorem unvisited_lt (heap : List ObjData) {cache : List Nat} {addr : Nat}
    (h1 : addr < heap.length) (h2 : addr ∉ cache) :
    unvisited heap (addr :: cache) < unvisited heap cache := by
  have hsub : (Finset.range heap.length).filter (fun a => a ∉ addr :: cache) ⊆
      (Finset.range heap.length).filter (fun a => a ∉ cache) := by
    intro a ha
    simp only [Finset.mem_filter, List.mem_cons] at ha ⊢
    exact ⟨ha.1, fun hc => ha.2 (Or.inr hc)⟩
  refine Finset.card_lt_card ((Finset.ssubset_iff_of_subset hsub).mpr ⟨addr, ?_, ?_⟩)
  · simp [Finset.mem_filter, Finset.mem_range, h1, h2]
  · simp

/-- Fuel sufficiency for the serializer: with more fuel than unvisited heap
addresses, the traversal never exhausts its fuel, and the visited cache only
grows.  This is the termination argument for `stringify`: each descent into
a composite consumes one unvisited address. -/
theorem serialize_total_aux (heap : List ObjData) (fuel : Nat) :
    (∀ cache v, unvisited heap cache < fuel →
      ∃ r c', serializeVal heap fuel cache v = some (r, c') ∧
        ∀ a, a ∈ cache → a ∈ c') ∧
    (∀ fields cache, unvisited heap cache < fuel →
      ∃ rs c', serializeFields heap fuel cache fields = some (rs, c') ∧
        ∀ a, a ∈ cache → a ∈ c') := by
  induction fuel with
  | zero =>
    exact ⟨fun cache v h => absurd h (Nat.not_lt_zero _),
      fun fields cache h => absurd h (Nat.not_lt_zero _)⟩
  | succ fuel ih =>
    have hV : ∀ cache v, unvisited heap cache < fuel + 1 →
        ∃ r c', serializeVal heap (fuel + 1) cache v = some (r, c') ∧
          ∀ a, a ∈ cache → a ∈ c' := by
      intro cache v h
      cases v with
      | vnull => exact ⟨some .snull, cache, by simp [serializeVal], fun a ha => ha⟩
      | vundef =>
        exact ⟨some (.sstr UNDEFINED_FLAG), cache, by simp [serializeVal],
          fun a ha => ha⟩
      | vbool b => exact ⟨some (.sbool b), cache, by simp [serializeVal], fun a ha => ha⟩
      | vnum n => exact ⟨some (.snum n), cache, by simp [serializeVal], fun a ha => ha⟩
      | vstr s => exact ⟨some (.sstr s), cache, by simp [serializeVal], fun a ha => ha⟩
      | vfun src =>
        cases hf : getFn src with
        | some t =>
          exact ⟨some (.sstr (String.mk t)), cache, by simp [serializeVal, hf],
            fun a ha => ha⟩
        | none =>
          cases ha2 : getArrowFn src with
          | some t =>
            exact ⟨some (.sstr (String.mk t)), cache,
              by simp [serializeVal, hf, ha2], fun a ha => ha⟩
          | none =>
            exact ⟨some .snull, cache, by simp [serializeVal, hf, ha2],
              fun a ha => ha⟩
      | vobj addr =>
        cases hget : heap[addr]? with
        | none => exact ⟨some .snull, cache, by simp [serializeVal, hget], fun a ha => ha⟩
        | some od =>
          by_cases hthen : od.hasThen
          · exact ⟨some (.sstr "Promise"), cache,
              by simp [serializeVal, hget, hthen], fun a ha => ha⟩
          · by_cases hmem : addr ∈ cache
            · exact ⟨none, cache, by simp [serializeVal, hget, hthen, hmem],
                fun a ha => ha⟩
            · have haddr : addr < heap.length := by
                rcases List.getElem?_eq_some.mp hget with ⟨h', _⟩
                exact h'
              have hdec : unvisited heap (addr :: cache) < fuel := by
                have := unvisited_lt heap haddr hmem
                omega
              obtain ⟨rs, c', heq, hmono⟩ := ih.2 od.fields (addr :: cache) hdec
              by_cases harr : od.isArr
              · refine ⟨some (.sarr (rs.map (fun p => p.2.getD .snull))), c', ?_,
                  fun a ha => hmono a (List.mem_cons_of_mem _ ha)⟩
                simp [serializeVal, hget, hthen, hmem, heq, harr]
              · refine ⟨some (.sobj (rs.filterMap
                    (fun p => p.2.map (fun s => (p.1, s))))), c', ?_,
                  fun a ha => hmono a (List.mem_cons_of_mem _ ha)⟩
                simp [serializeVal, hget, hthen, hmem, heq, harr]
    have hF : ∀ fields cache, unvisited heap cache < fuel + 1 →
        ∃ rs c', serializeFields heap (fuel + 1) cache fields = some (rs, c') ∧
          ∀ a, a ∈ cache → a ∈ c' := by
      intro fields
      induction fields with
      | nil =>
        intro cache _
        exact ⟨[], cache, by simp [serializeFields], fun a ha => ha⟩
      | cons kv rest ihf =>
        obtain ⟨k, v⟩ := kv
        intro cache h
        obtain ⟨r, c₁, heq1, hm1⟩ := hV cache v h
        have h1 : unvisited heap c₁ < fuel + 1 :=
          lt_of_le_of_lt (unvisited_le heap hm1) h
        obtain ⟨rs, c₂, heq2, hm2⟩ := ihf c₁ h1
        refine ⟨(k, r) :: rs, c₂, ?_, fun a ha => hm2 a (hm1 a ha)⟩
        simp [serializeFields, heq1, heq2]
    exact ⟨hV, hF⟩

/-- Serialization never runs out of fuel at the entry point's fuel budget:
`stringify` always produces an `ok` result. -/
theorem stringify_total (heap : List ObjData) (v : JSVal) :
    ∃ s, stringify heap v = Except.ok s := by
  obtain ⟨r, c', heq, -⟩ :=
    (serialize_total_aux heap (heap.length + 1)).1 [] v
      (by rw [unvisited_empty]; omega)
  cases r with
  | some s => exact ⟨renderS s, by simp [stringify, heq]⟩
  | none => exact ⟨"undefined", by simp [stringify, heq]⟩

/-- C9: serialization terminates on every input — `stringify` always returns
normally, and `tryToStringify` returns exactly its payload, so the entry
point never raises (any serialization exception would be downgraded to a
diagnostic string by the catch wrapper, which here is never even reached) —
and on the self-referencing composite at heap address `0` the repeated
occurrence is omitted rather than traversed: the cyclic edge is dropped from
the rendered object, giving `"\x7b\x7d"`. -/
theorem serialization_total_and_cycle_omitted :
    (∀ heap v, stringify heap v = Except.ok (tryToStringify heap v)) ∧
    serializeVal [⟨[("self", .vobj 0)], false, false⟩] 2 [] (.vobj 0) =
      some (some (.sobj []), [0]) ∧
    tryToStringify [⟨[("self", .vobj 0)], false, false⟩] (.vobj 0) = "\x7b\x7d" := by
  refine ⟨?_, ?_, ?_⟩
  · intro heap v
    obtain ⟨s, heq⟩ := stringify_total heap v
    rw [heq, tryToStringify, heq]
  · simp [serializeVal, serializeFields]
  · simp [tryToStringify, stringify, serializeVal, serializeFields, renderS,
      renderFieldList]

end InlineDebugger


